import Mathlib

/-!
A shallow embedding of `sync/projectutil.py`: the `Command` class (subprocess
invocation with telemetry on failure, dynamic attribute dispatch), its
specializations `Mach`, `WPT` and `MozPhab`, and the `create_mock` factory.

External effects are made explicit: the operating system process facility is
passed as a function, the telemetry sink and the filesystem operations are
recorded in an event trace, the filesystem is the set of existing paths, and
the per-class mutable state of a mock class is threaded explicitly.
-/

namespace ProjectUtil

/-- Keyword options forwarded opaquely to `subprocess.check_output`. -/
abbrev Opts := List (String × String)

/-- The filesystem, modelled as the set (list) of existing paths. -/
abbrev FS := List String

/-- Outcome of running one subprocess to completion, as signalled by
`subprocess.check_output`: captured output on success, a
`CalledProcessError` payload (return code and captured output) on a nonzero
exit. -/
inductive ProcOutcome where
  | success (output : String)
  | failure (returncode : Int) (output : String)
deriving DecidableEq

/-- The OS process facility: argv, working directory and options determine
the outcome. -/
abbrev OS := List String → String → Opts → ProcOutcome

/-- The Python exceptions that the embedded code can raise.
`recursionError` is what the interpreter raises when the synthesized
closure's `self.get` call resolves to another synthesized method cached
under the key `get`, which calls `self.get` again on the same instance,
without bound. -/
inductive PyError where
  | assertionError
  | calledProcessError (returncode : Int) (output : String)
  | indexError
  | recursionError
deriving DecidableEq

/-- The `params` record sent to `newrelic.agent.record_exception`. -/
structure TelemetryRecord where
  command : String
  exit_code : Int
  command_output : String
deriving DecidableEq

/-- Observable external effects of one call, in order: a subprocess
invocation, a telemetry emission, an `os.path.exists` check, or a
`shutil.rmtree` removal. -/
inductive Event where
  | subprocess (argv : List String) (cwd : String)
  | telemetry (r : TelemetryRecord)
  | existsCheck (p : String) (result : Bool)
  | rmtree (p : String)
deriving DecidableEq

def isTelemetryEvent : Event → Bool
  | Event.telemetry _ => true
  | _ => false

def isCleanupEvent : Event → Bool
  | Event.existsCheck _ _ => true
  | Event.rmtree _ => true
  | _ => false

def isRmtreeEvent : Event → Bool
  | Event.rmtree _ => true
  | _ => false

/-- `os.path.join` for the two-component case. -/
def pathJoin (p n : String) : String :=
  if n.data.head? = some '/' then n
  else if p.data = [] ∨ p.data.getLast? = some '/' then p ++ n
  else p ++ "/" ++ n

/-- A callable synthesized by `Command.__getattr__`: the captured (stripped)
attribute name and an allocation id modelling the Python object identity of
the freshly created function object. -/
structure BoundCallable where
  capturedName : String
  id : Nat
deriving DecidableEq

/-- A `Command` instance: `self.name`, `self.path`, and the instance
`__dict__` entries created by `__getattr__` (attribute name to cached
callable), together with the allocation counter used to model the identity
of freshly synthesized callables. `self.logger` is the module-level logger
and logging is not modelled. -/
structure CommandInstance where
  name : String
  path : String
  dict : List (String × BoundCallable)
  nextId : Nat
deriving DecidableEq

/-- `Command.__init__`. -/
def mkCommand (name path : String) : CommandInstance := ⟨name, path, [], 0⟩

/-- Result of attribute access on a `Command` instance: a synthesized (or
cached) callable, or one of the attributes that exist before `__getattr__`
fires. -/
inductive AttrResult where
  | callable (f : BoundCallable)
  | base
deriving DecidableEq

/-- Attribute names on a `Command` instance that are resolved before
`__getattr__` fires: the instance attributes set in `__init__` and the class
attribute `get`. -/
def basePredefined : List String := ["name", "path", "logger", "get"]

/-- `if name.endswith("_"): name = name[:-1]` -/
def stripTrailingUnderscore (s : String) : String :=
  if s.data.getLast? = some '_' then String.mk s.data.dropLast else s

/-- `name.replace("_", "-")` -/
def underscoreToHyphen (s : String) : String :=
  String.mk (s.data.map (fun c => if c = '_' then '-' else c))

/-- Python `dict` lookup on an insertion-ordered association list. -/
def dictGet {α : Type} (d : List (String × α)) (k : String) : Option α :=
  match d with
  | [] => none
  | (k1, v) :: rest => if k1 = k then some v else dictGet rest k

/-- Python `dict` assignment: update an existing key in place, otherwise
append. -/
def dictSet {α : Type} (d : List (String × α)) (k : String) (v : α) :
    List (String × α) :=
  match d with
  | [] => [(k, v)]
  | (k1, v1) :: rest =>
      if k1 = k then (k, v) :: rest else (k1, v1) :: dictSet rest k v

/-- Result of `Command.get`: the returned value or raised error, the
external events in order, and the instance after the call. -/
structure RunResult where
  result : Except PyError String
  events : List Event
  inst : CommandInstance

/-- `Command.get`: asserts a nonempty subcommand tuple, then runs
`os.path.join(self.path, self.name)` followed by the subcommand with
`cwd = self.path`; on `CalledProcessError` it records
`{command, exit_code, command_output}` to telemetry and re-raises the same
error. The method assigns no instance attribute, so the instance is
returned unchanged. -/
def Command.get (inst : CommandInstance) (os : OS) (subcommand : List String)
    (opts : Opts) : RunResult :=
  if subcommand = [] then ⟨Except.error PyError.assertionError, [], inst⟩
  else
    match os (pathJoin inst.path inst.name :: subcommand) inst.path opts with
    | ProcOutcome.success out =>
        ⟨Except.ok out,
         [Event.subprocess (pathJoin inst.path inst.name :: subcommand) inst.path],
         inst⟩
    | ProcOutcome.failure code out =>
        ⟨Except.error (PyError.calledProcessError code out),
         [Event.subprocess (pathJoin inst.path inst.name :: subcommand) inst.path,
          Event.telemetry ⟨inst.name, code, out⟩],
         inst⟩

/-- Attribute access on a `Command` instance: the instance `__dict__` is
consulted first, then the predefined class/instance attributes; otherwise
`__getattr__` fires: it strips one trailing underscore, synthesizes a
callable bound to the stripped name, caches it in `__dict__` under the
stripped name, and returns it. -/
def Command.attrAccess (inst : CommandInstance) (x : String) :
    AttrResult × CommandInstance :=
  match dictGet inst.dict x with
  | some f => (AttrResult.callable f, inst)
  | none =>
      if x ∈ basePredefined then (AttrResult.base, inst)
      else
        let f : BoundCallable := ⟨stripTrailingUnderscore x, inst.nextId⟩
        (AttrResult.callable f,
         { inst with
            dict := dictSet inst.dict (stripTrailingUnderscore x) f,
            nextId := inst.nextId + 1 })

/-- The invocation `self.get(...)` as the synthesized closure performs it:
`get` is resolved by attribute lookup, so an instance `__dict__` entry named
`get` (cached by a previous access to the attribute `get_`) shadows the
class method. Such a shadowing entry is itself a synthesized method whose
body again calls `self.get` on the same instance, so the program repeats
the same resolution without any external effect until the interpreter
raises `RecursionError`; the model returns that outcome directly. Without a
shadow, the class method `Command.get` runs. -/
def Command.selfGet (inst : CommandInstance) (os : OS) (sub : List String)
    (opts : Opts) : RunResult :=
  match dictGet inst.dict "get" with
  | some _ => ⟨Except.error PyError.recursionError, [], inst⟩
  | none => Command.get inst os sub opts

/-- Invoking a callable synthesized by `__getattr__`:
`self.get(name.replace("_", "-"), *args, **kwargs)`, with `self.get`
resolved by attribute lookup (`Command.selfGet`). -/
def BoundCallable.call (f : BoundCallable) (inst : CommandInstance) (os : OS)
    (args : List String) (opts : Opts) : RunResult :=
  Command.selfGet inst os (underscoreToHyphen f.capturedName :: args) opts

/-- A `Mach` instance: the underlying `Command` state (with `name = "mach"`)
plus the `wpt_cache` path computed in `Mach.__init__`. -/
structure MachInstance where
  base : CommandInstance
  wpt_cache : String
deriving DecidableEq

/-- `Mach.__init__`: `wpt_cache = os.path.join(os.path.expanduser("~"),
".mozbuild", "cache", "wpt")`; `home` is the result of `expanduser("~")`. -/
def mkMach (home path : String) : MachInstance :=
  ⟨mkCommand "mach" path,
   pathJoin (pathJoin (pathJoin home ".mozbuild") "cache") "wpt"⟩

/-- `shutil.rmtree`: removes the path and everything below it. -/
def rmtreeFS (fs : FS) (p : String) : FS :=
  fs.filter (fun q => !(q == p || q.startsWith (p ++ "/")))

/-- The `finally` block of `Mach.get`, as its effect on the filesystem:
`if os.path.exists(self.wpt_cache): shutil.rmtree(self.wpt_cache)`. -/
def cleanupFS (p : String) (fs : FS) : FS :=
  if fs.contains p then rmtreeFS fs p else fs

/-- The `finally` block of `Mach.get`, as an event trace: one existence
check, followed by one removal exactly when the path exists. -/
def cleanupTrace (p : String) (fs : FS) : List Event :=
  Event.existsCheck p (fs.contains p) ::
    (if fs.contains p then [Event.rmtree p] else [])

/-- Result of `Mach.get`: the returned value or raised error, the external
events in order, the filesystem after the call, and the instance after the
call. -/
structure MachRunResult where
  result : Except PyError String
  events : List Event
  fs : FS
  inst : MachInstance

/-- `Mach.get`: runs the superclass `get` inside `try`; the `finally` block
then checks whether `wpt_cache` exists and removes it if so — on the success
path and on the failure path alike; the superclass result (value or raised
error) then propagates unchanged. -/
def Mach.get (m : MachInstance) (os : OS) (fs : FS) (subcommand : List String)
    (opts : Opts) : MachRunResult :=
  ⟨(Command.get m.base os subcommand opts).result,
   (Command.get m.base os subcommand opts).events ++ cleanupTrace m.wpt_cache fs,
   cleanupFS m.wpt_cache fs, m⟩

/-- `WPT.__init__`: a plain `Command` named `wpt`. -/
def mkWPT (path : String) : CommandInstance := mkCommand "wpt" path

/-- `MozPhab.__init__`: a plain `Command` named `moz-phab`. -/
def mkMozPhab (path : String) : CommandInstance := mkCommand "moz-phab" path

/-- One element of the regex `https://phabricator.services.mozilla.com/D`
(the part before `\d+`): a literal character, or the metacharacter `.`,
which in `re` matches any character except a newline. -/
inductive PatElem where
  | lit (c : Char)
  | dot
deriving DecidableEq

/-- Whether one pattern element matches one character. -/
def elemMatches : PatElem → Char → Bool
  | PatElem.lit l, c => l == c
  | PatElem.dot, c => c != '\n'

/-- The part of the pattern `https://phabricator.services.mozilla.com/D\d+`
before `\d+`, as `re.compile` reads it: each unescaped `.` in the pattern
source is the any-character metacharacter, every other character is a
literal. -/
def phabPat : List PatElem :=
  "https://phabricator.services.mozilla.com/D".data.map
    (fun c => if c = '.' then PatElem.dot else PatElem.lit c)

/-- Pointwise match of a whole pattern against a whole character list. -/
def patMatches : List PatElem → List Char → Bool
  | [], [] => true
  | p :: ps, c :: cs => elemMatches p c && patMatches ps cs
  | _, _ => false

/-- `\d` on a byte string: an ASCII digit. -/
def isDigitChar (c : Char) : Bool := '0' ≤ c && c ≤ '9'

/-- Match a pattern-element list at the front of the input, returning the
consumed characters and the remainder on success. -/
def matchPat : List PatElem → List Char → Option (List Char × List Char)
  | [], cs => some ([], cs)
  | _ :: _, [] => none
  | p :: ps, c :: cs =>
      if elemMatches p c then
        match matchPat ps cs with
        | none => none
        | some mr => some (c :: mr.1, mr.2)
      else none

/-- The maximal digit run at the front of the input, and the remainder. -/
def takeDigits : List Char → List Char × List Char
  | [] => ([], [])
  | c :: cs =>
      if isDigitChar c then
        let r := takeDigits cs
        (c :: r.1, r.2)
      else ([], c :: cs)

/-- Try the whole pattern at the current position: the pre-`\d+` part
followed greedily by at least one digit. Returns the matched text and the
remainder of the input. -/
def matchAt (cs : List Char) : Option (List Char × List Char) :=
  match matchPat phabPat cs with
  | none => none
  | some pr =>
      let d := takeDigits pr.2
      if d.1 = [] then none else some (pr.1 ++ d.1, d.2)

/-- `re.findall`: scan left to right, take each leftmost nonoverlapping
match and continue after it. Structured with fuel equal to the input length;
every step strictly shortens the input, so the fuel never runs out (see
`findallFuel_eq_findall`). -/
def findallFuel : Nat → List Char → List (List Char)
  | 0, _ => []
  | Nat.succ fuel, cs =>
      match matchAt cs with
      | some mr => mr.1 :: findallFuel fuel mr.2
      | none =>
          match cs with
          | [] => []
          | _ :: cs1 => findallFuel fuel cs1

def findall (cs : List Char) : List (List Char) := findallFuel cs.length cs

/-- `MozPhab.find_url`: `matches[-1]` when the pattern matched anywhere,
otherwise `None`. The method reads no instance attribute and assigns none,
so the instance passes through unchanged. -/
def MozPhab.find_url (inst : CommandInstance) (data : List Char) :
    Option (List Char) × CommandInstance :=
  ((findall data).getLast?, inst)

/-- One mock call-log entry:
`{"command": ..., "cwd": ..., "args": ..., "kwargs": ..., "rv": ...}`. -/
structure LogEntry where
  command : String
  cwd : String
  args : List String
  kwargs : Opts
  rv : String
deriving DecidableEq

/-- A scripted response registered with `set_data`: a literal value or a
callable producing the value from the remaining args and the options.
Values are modelled as strings, matching the captured-output contract of
the real tool. -/
inductive MockData where
  | value (v : String)
  | func (f : List String → Opts → String)

/-- The class-level mutable state of one mock class produced by
`create_mock(name)`: `_data` and `_log` are class attributes, so one copy is
shared by every instance of that class; the shared copy is threaded
explicitly here. -/
structure MockClassState where
  data : List (String × MockData)
  log : List LogEntry

/-- The class attributes `_data = {}` and `_log = []` as created by one call
to `create_mock`. -/
def MockCommand.initState : MockClassState := ⟨[], []⟩

/-- Classmethod `set_data`: `cls._data[command] = value`. -/
def MockCommand.set_data (st : MockClassState) (command : String)
    (value : MockData) : MockClassState :=
  { st with data := dictSet st.data command value }

/-- Classmethod `get_log`: returns `cls._log`. -/
def MockCommand.get_log (st : MockClassState) : List LogEntry := st.log

/-- `self._data.get(args[0], "")` followed by the `callable(data)` check:
a registered callable is invoked with `*args[1:], **kwargs`. -/
def mockResponse (data : List (String × MockData)) (a0 : String)
    (rest : List String) (kwargs : Opts) : String :=
  match dictGet data a0 with
  | none => ""
  | some (MockData.value v) => v
  | some (MockData.func f) => f rest kwargs

/-- `MockCommand.get`: `args[0]` raises `IndexError` on an empty args tuple,
before any log append; otherwise the response is computed and one log entry
is appended to the shared log. -/
def MockCommand.get (name path : String) (st : MockClassState)
    (args : List String) (kwargs : Opts) :
    Except PyError String × MockClassState :=
  match args with
  | [] => (Except.error PyError.indexError, st)
  | a0 :: rest =>
      (Except.ok (mockResponse st.data a0 rest kwargs),
       { st with
          log := st.log ++
            [⟨name, path, a0 :: rest, kwargs, mockResponse st.data a0 rest kwargs⟩] })

/-- The value of one instance attribute in `self.__dict__`: the strings set
in `__init__`, the module logger stored as `self.logger`, or a method
cached by `__getattr__`. -/
inductive PyAttr where
  | str (s : String)
  | loggerAttr
  | method (f : BoundCallable)
deriving DecidableEq

/-- A `Command` instance modelled at the level of its full `__dict__`:
`name`, `path`, `logger` and the `__getattr__` cache share one dictionary,
exactly as in Python, so a cache write under the key `name` or `path`
overwrites the attribute set in `__init__`. `CommandInstance` above is the
view of the same state with the string attributes split out; it is exact as
long as no access ever caches under the keys `name` or `path`. -/
structure PyCommandInstance where
  dict : List (String × PyAttr)
  nextId : Nat
deriving DecidableEq

/-- `Command.__init__` on the full-dict model: the three assignments in
source order. -/
def mkPyCommand (name path : String) : PyCommandInstance :=
  ⟨[("name", PyAttr.str name), ("path", PyAttr.str path),
    ("logger", PyAttr.loggerAttr)], 0⟩

/-- The class attributes of `Command`: plain functions, found after the
instance `__dict__` in Python's lookup order for non-data descriptors. -/
def commandClassAttrs : List String := ["get"]

/-- Result of attribute access on the full-dict model. -/
inductive PyAttrResult where
  | attr (a : PyAttr)
  | classMethod
deriving DecidableEq

/-- Attribute access on the full-dict model: the instance `__dict__` first,
then the class attribute `get`, then `__getattr__`, which strips one
trailing underscore and caches the synthesized method in the same
`__dict__` under the stripped name — overwriting any existing entry of that
name, including the `name` and `path` strings set in `__init__`. -/
def Command.pyAttrAccess (inst : PyCommandInstance) (x : String) :
    PyAttrResult × PyCommandInstance :=
  match dictGet inst.dict x with
  | some a => (PyAttrResult.attr a, inst)
  | none =>
      if x ∈ commandClassAttrs then (PyAttrResult.classMethod, inst)
      else
        let f : BoundCallable := ⟨stripTrailingUnderscore x, inst.nextId⟩
        (PyAttrResult.attr (PyAttr.method f),
         ⟨dictSet inst.dict (stripTrailingUnderscore x) (PyAttr.method f),
          inst.nextId + 1⟩)

/-- A process facility on which every invocation succeeds. -/
def osOk : OS := fun _ _ _ => ProcOutcome.success "ok"

/-- A process facility on which every invocation fails with exit code 2 and
captured output `boom`. -/
def osBoom : OS := fun _ _ _ => ProcOutcome.failure 2 "boom"

/-- A sample output containing two review URLs, `D111` first and `D222`
second. -/
def demoText : String :=
  "Created https://phabricator.services.mozilla.com/D111 then https://phabricator.services.mozilla.com/D222 done"

/-- The later of the two review URLs in `demoText`. -/
def demoUrl : String := "https://phabricator.services.mozilla.com/D222"

/-! ### Helper lemmas -/

theorem dictGet_dictSet_self {α : Type} (d : List (String × α)) (k : String)
    (v : α) : dictGet (dictSet d k v) k = some v := by
  induction d with
  | nil => simp [dictGet, dictSet]
  | cons hd tl ih =>
      obtain ⟨k1, v1⟩ := hd
      by_cases h : k1 = k
      · simp [dictGet, dictSet, h]
      · simp [dictGet, dictSet, h, ih]

theorem commandGet_inst (inst : CommandInstance) (os : OS)
    (sub : List String) (opts : Opts) :
    (Command.get inst os sub opts).inst = inst := by
  unfold Command.get
  split
  · rfl
  · split <;> rfl

theorem selfGet_inst (inst : CommandInstance) (os : OS)
    (sub : List String) (opts : Opts) :
    (Command.selfGet inst os sub opts).inst = inst := by
  unfold Command.selfGet
  split
  · rfl
  · exact commandGet_inst inst os sub opts

theorem commandGet_events_not_cleanup (inst : CommandInstance) (os : OS)
    (sub : List String) (opts : Opts) :
    ∀ e ∈ (Command.get inst os sub opts).events, isCleanupEvent e = false := by
  unfold Command.get
  split
  · intro e he
    simp at he
  · split
    · intro e he
      simp at he
      subst he
      rfl
    · intro e he
      simp at he
      rcases he with rfl | rfl <;> rfl

theorem isCleanup_of_isRmtree {e : Event} (h : isRmtreeEvent e = true) :
    isCleanupEvent e = true := by
  cases e <;> simp [isRmtreeEvent, isCleanupEvent] at h ⊢

theorem not_mem_rmtreeFS_self (fs : FS) (p : String) : p ∉ rmtreeFS fs p := by
  intro hmem
  have h := (List.mem_filter.mp hmem).2
  simp at h

theorem cleanupFS_contains_self (p : String) (fs : FS) :
    (cleanupFS p fs).contains p = false := by
  unfold cleanupFS
  split
  · simpa [List.contains] using not_mem_rmtreeFS_self fs p
  · next h => simpa using h

theorem dictGet_dictSet_ne {α : Type} (d : List (String × α)) (k k1 : String)
    (v : α) (hne : k ≠ k1) : dictGet (dictSet d k v) k1 = dictGet d k1 := by
  induction d with
  | nil => simp [dictGet, dictSet, hne]
  | cons hd tl ih =>
      obtain ⟨k2, v2⟩ := hd
      by_cases h : k2 = k
      · subst h
        simp [dictGet, dictSet, hne]
      · simp [dictGet, dictSet, h, ih]

theorem matchPat_length (ps : List PatElem) :
    ∀ cs m rest, matchPat ps cs = some (m, rest) →
      cs.length = ps.length + rest.length := by
  induction ps with
  | nil =>
      intro cs m rest h
      simp [matchPat] at h
      rw [h.2]
      simp
  | cons p ps ih =>
      intro cs m rest h
      cases cs with
      | nil => simp [matchPat] at h
      | cons c cs1 =>
          unfold matchPat at h
          split at h
          · cases hrec : matchPat ps cs1 with
            | none => rw [hrec] at h; simp at h
            | some mr =>
                rw [hrec] at h
                simp at h
                have := ih cs1 mr.1 mr.2 (by rw [hrec])
                rw [← h.2]
                simp [this]
                omega
          · simp at h

theorem matchPat_matches (ps : List PatElem) :
    ∀ cs m rest, matchPat ps cs = some (m, rest) →
      patMatches ps m = true := by
  induction ps with
  | nil =>
      intro cs m rest h
      simp [matchPat] at h
      rw [h.1]
      rfl
  | cons p ps ih =>
      intro cs m rest h
      cases cs with
      | nil => simp [matchPat] at h
      | cons c cs1 =>
          unfold matchPat at h
          split at h
          · next hel =>
              cases hrec : matchPat ps cs1 with
              | none => rw [hrec] at h; simp at h
              | some mr =>
                  rw [hrec] at h
                  simp at h
                  rw [← h.1]
                  simp [patMatches, hel]
                  exact ih cs1 mr.1 mr.2 (by rw [hrec])
          · simp at h

theorem takeDigits_snd_length (cs : List Char) :
    (takeDigits cs).2.length ≤ cs.length := by
  induction cs with
  | nil => simp [takeDigits]
  | cons c cs1 ih =>
      unfold takeDigits
      split
      · simpa using Nat.le_succ_of_le ih
      · simp

theorem takeDigits_fst_digits (cs : List Char) :
    ∀ c ∈ (takeDigits cs).1, isDigitChar c = true := by
  induction cs with
  | nil =>
      intro c hc
      simp [takeDigits] at hc
  | cons a cs1 ih =>
      intro c hc
      unfold takeDigits at hc
      split at hc
      · next h =>
          simp at hc
          rcases hc with rfl | hc
          · exact h
          · exact ih c hc
      · simp at hc

theorem matchAt_length (cs m r : List Char) (h : matchAt cs = some (m, r)) :
    r.length < cs.length := by
  unfold matchAt at h
  cases hm : matchPat phabPat cs with
  | none => rw [hm] at h; simp at h
  | some pr =>
      rw [hm] at h
      simp only [] at h
      split at h
      · simp at h
      · have hlit := matchPat_length phabPat cs pr.1 pr.2 (by rw [hm])
        have hpat : 0 < phabPat.length := by decide
        have htd := takeDigits_snd_length pr.2
        have hr : r = (takeDigits pr.2).2 := by
          injection h with h1
          exact (congrArg Prod.snd h1).symm
        rw [hr]
        omega

theorem matchAt_shape (cs m r : List Char) (h : matchAt cs = some (m, r)) :
    ∃ pre ds, patMatches phabPat pre = true ∧ ds ≠ [] ∧
      (∀ c ∈ ds, isDigitChar c = true) ∧ m = pre ++ ds := by
  unfold matchAt at h
  cases hm : matchPat phabPat cs with
  | none => rw [hm] at h; simp at h
  | some pr =>
      rw [hm] at h
      simp only [] at h
      split at h
      · simp at h
      · next hne =>
          refine ⟨pr.1, (takeDigits pr.2).1,
            matchPat_matches phabPat cs pr.1 pr.2 (by rw [hm]), hne,
            takeDigits_fst_digits pr.2, ?_⟩
          injection h with h1
          exact (congrArg Prod.fst h1).symm

theorem findallFuel_zero (cs : List Char) : findallFuel 0 cs = [] := rfl

theorem findallFuel_succ (fuel : Nat) (cs : List Char) :
    findallFuel (fuel + 1) cs =
      (match matchAt cs with
       | some mr => mr.1 :: findallFuel fuel mr.2
       | none =>
          match cs with
          | [] => []
          | _ :: cs1 => findallFuel fuel cs1) := rfl

theorem findallFuel_shape (fuel : Nat) :
    ∀ cs, ∀ m ∈ findallFuel fuel cs,
      ∃ pre ds, patMatches phabPat pre = true ∧ ds ≠ [] ∧
        (∀ c ∈ ds, isDigitChar c = true) ∧ m = pre ++ ds := by
  induction fuel with
  | zero =>
      intro cs m hm
      simp [findallFuel] at hm
  | succ fuel ih =>
      intro cs m hm
      rw [findallFuel_succ] at hm
      cases hma : matchAt cs with
      | some mr =>
          rw [hma] at hm
          simp at hm
          rcases hm with rfl | hm
          · exact matchAt_shape cs mr.1 mr.2 (by rw [hma])
          · exact ih mr.2 m hm
      | none =>
          rw [hma] at hm
          cases cs with
          | nil => simp at hm
          | cons c cs1 => exact ih cs1 m hm

theorem findall_shape (cs : List Char) :
    ∀ m ∈ findall cs,
      ∃ pre ds, patMatches phabPat pre = true ∧ ds ≠ [] ∧
        (∀ c ∈ ds, isDigitChar c = true) ∧ m = pre ++ ds :=
  findallFuel_shape cs.length cs

/-- The three unescaped dots of the source pattern match any character, as
`re` reads them: a URL whose separators are arbitrary non-newline
characters is matched and returned. -/
theorem findall_dot_any_char :
    findall ("https://phabricatorXservicesYmozillaZcom/D5").data =
      [("https://phabricatorXservicesYmozillaZcom/D5").data] := by decide

/-- The fuel used by `findall` is always sufficient: with any fuel at least
the input length, `findallFuel` computes the same match list, so the fuel
presentation is a faithful rendering of the terminating scan. -/
theorem findallFuel_stable (n : Nat) :
    ∀ fuel cs, List.length cs ≤ n → List.length cs ≤ fuel →
      findallFuel fuel cs = findallFuel cs.length cs := by
  induction n using Nat.strong_induction_on with
  | _ n ih =>
      intro fuel cs hn hf
      cases fuel with
      | zero =>
          have : cs = [] := by
            cases cs
            · rfl
            · simp at hf
          subst this
          rfl
      | succ fuel =>
          cases cs with
          | nil =>
              have hnone : matchAt [] = none := by decide
              simp [findallFuel_succ, findallFuel_zero, hnone]
          | cons c cs1 =>
              have hlen : cs1.length + 1 ≤ n := by simpa using hn
              show findallFuel (fuel + 1) (c :: cs1) =
                findallFuel (cs1.length + 1) (c :: cs1)
              rw [findallFuel_succ, findallFuel_succ]
              cases hma : matchAt (c :: cs1) with
              | some mr =>
                  have hlt := matchAt_length (c :: cs1) mr.1 mr.2 (by rw [hma])
                  simp only [List.length_cons] at hlt
                  have h1 : findallFuel fuel mr.2 = findallFuel mr.2.length mr.2 :=
                    ih mr.2.length (by omega) fuel mr.2 le_rfl (by
                      simp at hf
                      omega)
                  have h2 : findallFuel cs1.length mr.2 =
                      findallFuel mr.2.length mr.2 :=
                    ih mr.2.length (by omega) cs1.length mr.2 le_rfl (by omega)
                  simp [h1, h2]
              | none =>
                  have h1 : findallFuel fuel cs1 = findallFuel cs1.length cs1 :=
                    ih cs1.length (by omega) fuel cs1 le_rfl (by
                      simp at hf
                      omega)
                  simp [h1]

theorem findallFuel_eq_findall (fuel : Nat) (cs : List Char)
    (h : cs.length ≤ fuel) : findallFuel fuel cs = findall cs :=
  findallFuel_stable cs.length fuel cs le_rfl h

/-! ### Claims -/

/-- C2: whenever the subprocess fails with a nonzero exit code, exactly one
telemetry record `{command, exit_code, command_output}` is emitted, and the
original `CalledProcessError` (same exit code and output) is re-raised
unchanged. -/
theorem c2_failure_telemetry (inst : CommandInstance) (os : OS)
    (sub : List String) (opts : Opts) (code : Int) (out : String)
    (hsub : sub ≠ [])
    (hfail : os (pathJoin inst.path inst.name :: sub) inst.path opts =
      ProcOutcome.failure code out) :
    Command.get inst os sub opts =
      ⟨Except.error (PyError.calledProcessError code out),
       [Event.subprocess (pathJoin inst.path inst.name :: sub) inst.path,
        Event.telemetry ⟨inst.name, code, out⟩],
       inst⟩ ∧
    (Command.get inst os sub opts).events.filter isTelemetryEvent =
      [Event.telemetry ⟨inst.name, code, out⟩] := by
  have h1 : Command.get inst os sub opts =
      ⟨Except.error (PyError.calledProcessError code out),
       [Event.subprocess (pathJoin inst.path inst.name :: sub) inst.path,
        Event.telemetry ⟨inst.name, code, out⟩],
       inst⟩ := by
    unfold Command.get
    rw [if_neg hsub, hfail]
  refine ⟨h1, ?_⟩
  rw [h1]
  rfl

/-- Witness for C2: a concrete failing invocation emits the one expected
telemetry record and re-raises the error. -/
theorem c2_failure_telemetry_witness :
    Command.get (mkCommand "git" "/repo") osBoom ["status"] [] =
      ⟨Except.error (PyError.calledProcessError 2 "boom"),
       [Event.subprocess (pathJoin "/repo" "git" :: ["status"]) "/repo",
        Event.telemetry ⟨"git", 2, "boom"⟩],
       mkCommand "git" "/repo"⟩ ∧
    (Command.get (mkCommand "git" "/repo") osBoom ["status"] []).events.filter
        isTelemetryEvent = [Event.telemetry ⟨"git", 2, "boom"⟩] :=
  c2_failure_telemetry (mkCommand "git" "/repo") osBoom ["status"] [] 2 "boom"
    (by decide) rfl

/-- C8: calling `run` with zero positional arguments fails fast with the
assertion error: no subprocess event and no telemetry event occurs. -/
theorem c8_empty_subcommand (inst : CommandInstance) (os : OS) (opts : Opts) :
    Command.get inst os [] opts =
      ⟨Except.error PyError.assertionError, [], inst⟩ ∧
    (Command.get inst os [] opts).events.filter isTelemetryEvent = [] := by
  constructor <;> rfl

/-- C3: `Mach.get` runs the cache-cleanup step (existence check, then
recursive removal when the directory exists) exactly once, after the
subprocess step, on the success path and the failure path alike: the
superclass events carry no cleanup event, the full trace is the superclass
trace followed by exactly the one cleanup step, at most one removal happens,
the superclass result (value or error) is returned unchanged, and the cache
directory does not exist afterwards. -/
theorem c3_mach_cleanup (m : MachInstance) (os : OS) (fs : FS)
    (sub : List String) (opts : Opts) :
    (Mach.get m os fs sub opts).result = (Command.get m.base os sub opts).result ∧
    (Mach.get m os fs sub opts).events =
      (Command.get m.base os sub opts).events ++ cleanupTrace m.wpt_cache fs ∧
    (Command.get m.base os sub opts).events.filter isCleanupEvent = [] ∧
    (Mach.get m os fs sub opts).events.filter isCleanupEvent =
      cleanupTrace m.wpt_cache fs ∧
    ((Mach.get m os fs sub opts).events.filter isRmtreeEvent).length ≤ 1 ∧
    (Mach.get m os fs sub opts).fs.contains m.wpt_cache = false := by
  have hbase : (Command.get m.base os sub opts).events.filter isCleanupEvent
      = [] := by
    rw [List.filter_eq_nil_iff]
    intro e he
    simp [commandGet_events_not_cleanup m.base os sub opts e he]
  have hbase2 : (Command.get m.base os sub opts).events.filter isRmtreeEvent
      = [] := by
    rw [List.filter_eq_nil_iff]
    intro e he
    intro hr
    have := commandGet_events_not_cleanup m.base os sub opts e he
    rw [isCleanup_of_isRmtree hr] at this
    simp at this
  have hct : (cleanupTrace m.wpt_cache fs).filter isCleanupEvent =
      cleanupTrace m.wpt_cache fs := by
    unfold cleanupTrace
    split <;> rfl
  have hrt : ((cleanupTrace m.wpt_cache fs).filter isRmtreeEvent).length ≤ 1 := by
    unfold cleanupTrace
    split <;> simp [isRmtreeEvent]
  refine ⟨rfl, rfl, hbase, ?_, ?_, cleanupFS_contains_self m.wpt_cache fs⟩
  · show ((Command.get m.base os sub opts).events ++
      cleanupTrace m.wpt_cache fs).filter isCleanupEvent =
      cleanupTrace m.wpt_cache fs
    rw [List.filter_append, hbase, hct]
    rfl
  · show (((Command.get m.base os sub opts).events ++
      cleanupTrace m.wpt_cache fs).filter isRmtreeEvent).length ≤ 1
    rw [List.filter_append, hbase2]
    simpa using hrt

/-- C9 counterexample: dynamic attribute access can modify `name` after
construction — on the full-`__dict__` model, accessing the attribute
`name_` on a freshly constructed instance overwrites the `name` attribute
(the construction-time string `git`) with the synthesized method, because
`__getattr__` caches under the stripped name in the same `self.__dict__`
that holds `name`. -/
theorem c9_counterexample :
    dictGet (Command.pyAttrAccess (mkPyCommand "git" "/repo") "name_").2.dict
        "name" ≠
      dictGet (mkPyCommand "git" "/repo").dict "name" := by decide

/-- C9 (amended): `run`, the synthesized calls, `Mach.get` and `find_url`
leave the instance unchanged, and dynamic attribute access preserves the
`name` and `path` attributes for every attribute name whose
trailing-underscore-stripped form is neither `name` nor `path`; accessing
`name_` or `path_`, however, overwrites the corresponding attribute with
the synthesized method (see the counterexample). -/
theorem c9_name_path_preserved (inst : PyCommandInstance)
    (cinst : CommandInstance) (m : MachInstance) (os : OS) (fs : FS)
    (sub args : List String) (opts : Opts) (x : String) (f : BoundCallable)
    (data : List Char)
    (hn : stripTrailingUnderscore x ≠ "name")
    (hp : stripTrailingUnderscore x ≠ "path") :
    dictGet (Command.pyAttrAccess inst x).2.dict "name" =
      dictGet inst.dict "name" ∧
    dictGet (Command.pyAttrAccess inst x).2.dict "path" =
      dictGet inst.dict "path" ∧
    (Command.get cinst os sub opts).inst = cinst ∧
    (BoundCallable.call f cinst os args opts).inst = cinst ∧
    (Mach.get m os fs sub opts).inst = m ∧
    (MozPhab.find_url cinst data).2 = cinst := by
  refine ⟨?_, ?_, commandGet_inst cinst os sub opts,
    selfGet_inst cinst os _ opts, rfl, rfl⟩
  · unfold Command.pyAttrAccess
    split
    · rfl
    · split
      · rfl
      · exact dictGet_dictSet_ne inst.dict (stripTrailingUnderscore x)
          "name" _ hn
  · unfold Command.pyAttrAccess
    split
    · rfl
    · split
      · rfl
      · exact dictGet_dictSet_ne inst.dict (stripTrailingUnderscore x)
          "path" _ hp

/-- Witness for the amended C9: a concrete access to `status_` on a fresh
full-dict instance leaves the `name` and `path` attributes at their
construction-time values, and the other operations leave concrete instances
unchanged. -/
theorem c9_name_path_preserved_witness :
    dictGet (Command.pyAttrAccess (mkPyCommand "git" "/repo") "status_").2.dict
        "name" = dictGet (mkPyCommand "git" "/repo").dict "name" ∧
    dictGet (Command.pyAttrAccess (mkPyCommand "git" "/repo") "status_").2.dict
        "path" = dictGet (mkPyCommand "git" "/repo").dict "path" ∧
    (Command.get (mkMozPhab "/repo") osOk ["status"] []).inst =
      mkMozPhab "/repo" ∧
    (BoundCallable.call ⟨"status", 0⟩ (mkMozPhab "/repo") osOk [] []).inst =
      mkMozPhab "/repo" ∧
    (Mach.get (mkMach "/home/u" "/repo") osOk [] ["status"] []).inst =
      mkMach "/home/u" "/repo" ∧
    (MozPhab.find_url (mkMozPhab "/repo") demoText.data).2 = mkMozPhab "/repo" :=
  c9_name_path_preserved (mkPyCommand "git" "/repo") (mkMozPhab "/repo")
    (mkMach "/home/u" "/repo") osOk [] ["status"] [] [] "status_"
    ⟨"status", 0⟩ demoText.data (by decide) (by decide)

/-- C4 counterexample: on a freshly constructed instance, two successive
accesses to the attribute name `list_` return different callables. The
callable is cached under the stripped name `list`, so the underscored
spelling misses the cache and a fresh callable is synthesized each time. -/
theorem c4_counterexample :
    (Command.attrAccess
      (Command.attrAccess (mkCommand "git" "/repo") "list_").2 "list_").1 ≠
    (Command.attrAccess (mkCommand "git" "/repo") "list_").1 := by decide

/-- C4 (amended): the synthesized callable is cached on the instance under
the attribute name with its trailing underscore stripped. After a first
access to a name `x` not already defined, an access to the stripped spelling
returns the identical cached callable and leaves the instance unchanged; in
particular, for a name without a trailing underscore (where the stripped
spelling is the name itself) a second access to the same attribute name
returns the identical callable. -/
theorem c4_cache_under_stripped_name (inst : CommandInstance) (x : String)
    (hx : x ∉ basePredefined) (hmiss : dictGet inst.dict x = none) :
    ∃ f inst1,
      Command.attrAccess inst x = (AttrResult.callable f, inst1) ∧
      f.capturedName = stripTrailingUnderscore x ∧
      dictGet inst1.dict (stripTrailingUnderscore x) = some f ∧
      Command.attrAccess inst1 (stripTrailingUnderscore x) =
        (AttrResult.callable f, inst1) ∧
      (x.data.getLast? ≠ some '_' →
        Command.attrAccess inst1 x = (AttrResult.callable f, inst1)) := by
  refine ⟨⟨stripTrailingUnderscore x, inst.nextId⟩,
    { inst with
        dict := dictSet inst.dict (stripTrailingUnderscore x)
          ⟨stripTrailingUnderscore x, inst.nextId⟩,
        nextId := inst.nextId + 1 }, ?_, rfl, ?_, ?_, ?_⟩
  · simp [Command.attrAccess, hmiss, hx]
  · exact dictGet_dictSet_self inst.dict (stripTrailingUnderscore x) _
  · simp [Command.attrAccess, dictGet_dictSet_self]
  · intro hnu
    have hids : stripTrailingUnderscore x = x := by
      unfold stripTrailingUnderscore
      rw [if_neg hnu]
    rw [hids]
    simp [Command.attrAccess, dictGet_dictSet_self]

/-- Witness for the amended C4: a concrete first access to `update_` caches
the callable under `update`, and an access to `update` returns the identical
callable. -/
theorem c4_cache_under_stripped_name_witness :
    ∃ f inst1,
      Command.attrAccess (mkCommand "wpt" "/w") "update_" =
        (AttrResult.callable f, inst1) ∧
      f.capturedName = stripTrailingUnderscore "update_" ∧
      dictGet inst1.dict (stripTrailingUnderscore "update_") = some f ∧
      Command.attrAccess inst1 (stripTrailingUnderscore "update_") =
        (AttrResult.callable f, inst1) ∧
      (("update_").data.getLast? ≠ some '_' →
        Command.attrAccess inst1 "update_" =
          (AttrResult.callable f, inst1)) :=
  c4_cache_under_stripped_name (mkCommand "wpt" "/w") "update_"
    (by decide) rfl

/-- C5: mock `run` on a non-empty argument list looks up `args[0]` in the
scripted table — empty string when unregistered, a registered callable
applied to the remaining args and the options — appends exactly one log
entry recording tool name, working directory, full args, full kwargs and the
returned value, and returns that value. -/
theorem c5_mock_run (name path : String) (st : MockClassState) (a0 : String)
    (rest : List String) (kwargs : Opts) :
    MockCommand.get name path st (a0 :: rest) kwargs =
      (Except.ok (mockResponse st.data a0 rest kwargs),
       ⟨st.data,
        st.log ++ [⟨name, path, a0 :: rest, kwargs,
          mockResponse st.data a0 rest kwargs⟩]⟩) ∧
    (dictGet st.data a0 = none → mockResponse st.data a0 rest kwargs = "") ∧
    (∀ v, dictGet st.data a0 = some (MockData.value v) →
      mockResponse st.data a0 rest kwargs = v) ∧
    (∀ fn, dictGet st.data a0 = some (MockData.func fn) →
      mockResponse st.data a0 rest kwargs = fn rest kwargs) := by
  refine ⟨rfl, ?_, ?_, ?_⟩
  · intro h
    simp [mockResponse, h]
  · intro v h
    simp [mockResponse, h]
  · intro fn h
    simp [mockResponse, h]

/-- Witness for C5: `run("status")` with nothing scripted returns the empty
string and appends one log entry with `rv = ""`. -/
theorem c5_mock_run_witness :
    MockCommand.get "git" "/repo" MockCommand.initState ["status"] [] =
      (Except.ok "", ⟨[], [⟨"git", "/repo", ["status"], [], ""⟩]⟩) := by
  have h := (c5_mock_run "git" "/repo" MockCommand.initState "status" [] []).1
  simpa [MockCommand.initState, mockResponse, dictGet] using h

/-- C6: the scripted-response table and the call log are class-level state
shared by every instance of one mock class: after registering a value with
`set_data`, a call through an instance rooted at `p1` and a call through a
separately constructed instance rooted at `p2` both observe the value, and
their two log entries land in the one shared log in call order. -/
theorem c6_mock_shared_state (name p1 p2 cmd v : String)
    (st : MockClassState) (k1 k2 : Opts) :
    ∃ st2 st3,
      MockCommand.get name p1 (MockCommand.set_data st cmd (MockData.value v))
        [cmd] k1 = (Except.ok v, st2) ∧
      MockCommand.get name p2 st2 [cmd] k2 = (Except.ok v, st3) ∧
      st2.data = dictSet st.data cmd (MockData.value v) ∧
      st3.data = dictSet st.data cmd (MockData.value v) ∧
      MockCommand.get_log st3 =
        st.log ++ [⟨name, p1, [cmd], k1, v⟩, ⟨name, p2, [cmd], k2, v⟩] := by
  have hv : ∀ rest kw, mockResponse (dictSet st.data cmd (MockData.value v))
      cmd rest kw = v := by
    intro rest kw
    simp [mockResponse, dictGet_dictSet_self]
  refine ⟨⟨dictSet st.data cmd (MockData.value v),
      st.log ++ [⟨name, p1, [cmd], k1, v⟩]⟩,
    ⟨dictSet st.data cmd (MockData.value v),
      st.log ++ [⟨name, p1, [cmd], k1, v⟩] ++ [⟨name, p2, [cmd], k2, v⟩]⟩,
    ?_, ?_, rfl, rfl, ?_⟩
  · simp [MockCommand.get, MockCommand.set_data, hv]
  · simp [MockCommand.get, hv]
  · simp [MockCommand.get_log]

/-- C7: `find_url` returns the last match of the review-URL pattern
`https://phabricator.services.mozilla.com/D\d+` (with the three unescaped
dots matching any character, followed by a nonempty digit run) in document
order when at least one match exists, and returns nothing — not an error —
when no match exists. -/
theorem c7_find_url_last (inst : CommandInstance) (data : List Char) :
    ((MozPhab.find_url inst data).1 = none ↔ findall data = []) ∧
    (∀ m, (MozPhab.find_url inst data).1 = some m →
      (findall data).getLast? = some m ∧
      m ∈ findall data ∧
      ∃ pre ds, patMatches phabPat pre = true ∧ ds ≠ [] ∧
        (∀ c ∈ ds, isDigitChar c = true) ∧ m = pre ++ ds) := by
  constructor
  · show (findall data).getLast? = none ↔ findall data = []
    exact List.getLast?_eq_none_iff
  · intro m hm
    have hm1 : (findall data).getLast? = some m := hm
    have hmem : m ∈ findall data := by
      obtain ⟨hne, heq⟩ :=
        List.mem_getLast?_eq_getLast (l := findall data) (x := m) hm1
      rw [heq]
      exact List.getLast_mem hne
    exact ⟨hm1, hmem, findall_shape data m hmem⟩

/-- Witness for C7: on `demoText` the result is the `D222` URL, and on text
without a match the result is nothing. -/
theorem c7_find_url_last_witness :
    (MozPhab.find_url (mkMozPhab "/repo") demoText.data).1 =
      some demoUrl.data ∧
    (findall demoText.data).getLast? = some demoUrl.data ∧
    demoUrl.data ∈ findall demoText.data ∧
    (∃ pre ds, patMatches phabPat pre = true ∧ ds ≠ [] ∧
      (∀ c ∈ ds, isDigitChar c = true) ∧ demoUrl.data = pre ++ ds) ∧
    (MozPhab.find_url (mkMozPhab "/repo") ("no review url").data).1 = none := by
  have h0 : (MozPhab.find_url (mkMozPhab "/repo") demoText.data).1 =
      some demoUrl.data := by decide
  have h := (c7_find_url_last (mkMozPhab "/repo") demoText.data).2
    demoUrl.data h0
  exact ⟨h0, h.1, h.2.1, h.2.2, by decide⟩

/-- C10: mock `run` with zero positional arguments does not hit the base
class assertion guard: it raises an `IndexError` from the `args[0]` lookup,
and the shared log is unchanged. -/
theorem c10_mock_empty_args (name path : String) (st : MockClassState)
    (kwargs : Opts) :
    MockCommand.get name path st [] kwargs =
      (Except.error PyError.indexError, st) ∧
    (MockCommand.get name path st [] kwargs).2.log = st.log ∧
    (MockCommand.get name path st [] kwargs).1 ≠
      Except.error PyError.assertionError := by
  refine ⟨rfl, rfl, ?_⟩
  intro h
  simp [MockCommand.get] at h

/-- Witness for C10: the concrete empty-argument call on a fresh mock class
raises `IndexError` and leaves the log empty. -/
theorem c10_mock_empty_args_witness :
    MockCommand.get "git" "/repo" MockCommand.initState [] [] =
      (Except.error PyError.indexError, MockCommand.initState) ∧
    (MockCommand.get "git" "/repo" MockCommand.initState [] []).2.log =
      MockCommand.initState.log ∧
    (MockCommand.get "git" "/repo" MockCommand.initState [] []).1 ≠
      Except.error PyError.assertionError :=
  c10_mock_empty_args "git" "/repo" MockCommand.initState []

end ProjectUtil
